import Mathlib

/-!
Shallow embedding of the `ManipulateImage` blob-trigger pipeline from
`src/function_app.py` of hemastransform/shelfie-imagemanipulator.

Modelling conventions:
* Python strings are `List Char` (ASCII model of `str.lower` / `str.strip`).
* The floating-point quadrilateral coordinates returned by EasyOCR are
  modelled by exact rationals (`ℚ`); every concrete comparison appearing in a
  theorem below has a margin that dwarfs double-precision rounding error, so
  the exact-rational model and the float computation agree on all of them.
* `Python int(·)` is truncation toward zero (`Int.tdiv` of numerator by
  denominator).
* NumPy's slice semantics (negative endpoints count from the end of the axis,
  endpoints are clamped to the axis length) are modelled explicitly by
  `sliceBound` / `sliceLen`.
* Python's `set(...)` on line 72 deduplicates by value with unspecified
  iteration order; it is modelled by `List.dedup`, and every theorem about the
  filtered result only uses it as a set (membership / Nodup), never its order.
* The function-level `try/except` of lines 35-103 makes a raised upload error
  abort the rest of the loop; `attemptUploads` models that control flow with
  an oracle `ok i` telling whether the upload of crop `i` succeeds.
-/

/-- Whitespace test used by the model of Python `str.strip`. -/
def pyIsSpace (c : Char) : Bool := c.isWhitespace

/-- Model of Python `str.lower`: lowercase every character (ASCII model). -/
def pyLower (s : List Char) : List Char := s.map Char.toLower

/-- Model of Python `str.strip`: drop leading and trailing whitespace. -/
def pyStrip (s : List Char) : List Char :=
  ((s.dropWhile pyIsSpace).reverse.dropWhile pyIsSpace).reverse

/-- Normalization applied on line 52 of the source: `text = text.lower().strip()`. -/
def normText (s : List Char) : List Char := pyStrip (pyLower s)

/-- Tests whether the second list is a leading segment of the first. -/
def leadsWith : List Char → List Char → Bool
  | _, [] => true
  | [], _ :: _ => false
  | c :: t, d :: p => c == d && leadsWith t p

/-- Model of Python `keyword in text` (line 54): `containsSub t p` holds iff
`p` occurs contiguously inside `t`. -/
def containsSub : List Char → List Char → Bool
  | [], p => p.isEmpty
  | c :: t, p => leadsWith (c :: t) p || containsSub t p

/-- A quadrilateral corner; rational coordinates stand in for the
floating-point coordinates EasyOCR returns. -/
structure Pt where
  x : ℚ
  y : ℚ
deriving DecidableEq

/-- Model of Python `int(·)` on a rational coordinate: truncation toward zero,
as used on lines 58-61 of the source. -/
def pyInt (q : ℚ) : Int := q.num.tdiv (q.den : Int)

/-- One EasyOCR result (line 51 of the source): quadrilateral corners
`(tl, tr, br, bl)`, recognized text, and a confidence score. The confidence
is never read by the pipeline. -/
structure Detection where
  tl : Pt
  tr : Pt
  br : Pt
  bl : Pt
  text : List Char
  confidence : ℚ
deriving DecidableEq

/-- An axis-aligned box `(x, y, w, h)`, as built on lines 56-62. -/
structure Box where
  x : Int
  y : Int
  w : Int
  h : Int
deriving DecidableEq

/-- Lines 56-62 of the source: `w = int(br[0]-tl[0])`, `h = int(br[1]-tl[1])`,
`x, y = int(tl[0]), int(tl[1])`. -/
def toBox (d : Detection) : Box :=
  { x := pyInt d.tl.x, y := pyInt d.tl.y,
    w := pyInt (d.br.x - d.tl.x), h := pyInt (d.br.y - d.tl.y) }

/-- Inner keyword loop of lines 53-63: scan the keywords in order and stop at
the first match (the `break`). Returns whether a box is appended for this
detection. -/
def firstMatch (t : List Char) : List (List Char) → Bool
  | [] => false
  | k :: rest => if containsSub t k then true else firstMatch t rest

/-- CandidateExtractor (lines 51-63 of the source): one box per detection
whose normalized text matches some keyword. -/
def extract (kws : List (List Char)) : List Detection → List Box
  | [] => []
  | d :: rest =>
    if firstMatch (normText d.text) kws then toBox d :: extract kws rest
    else extract kws rest

/-- Keyword list of line 17 of the source. -/
def DISCOUNT_KEYWORDS : List (List Char) :=
  ["off".toList, "%".toList, "save".toList, "free".toList, "discount".toList,
   "offer".toList, "rs".toList, "!".toList, "deals".toList, "keels".toList]

/-- Line 18 of the source (`0.2`, exact in `ℚ`). -/
def FINAL_MIN_AREA_PERCENTAGE : ℚ := 2 / 10

/-- Line 19 of the source (`1.0`). -/
def FINAL_MAX_AREA_PERCENTAGE : ℚ := 1

/-- Area predicate of line 74: `final_min_area < area < final_max_area`,
strict on both sides. -/
def keepBox (minA maxA : ℚ) (b : Box) : Bool :=
  decide (minA < ((b.w * b.h : Int) : ℚ)) && decide (((b.w * b.h : Int) : ℚ) < maxA)

/-- AreaFilter (lines 68-75 of the source): deduplicate via `set(...)`
(modelled by `List.dedup`; Python's set iteration order is unspecified, so the
theorems below use the result only as a set), then keep the boxes whose area
lies strictly between `total_area * minFrac` and `total_area * maxFrac`. The
fraction arguments are the already-divided fractions: the source passes
`FINAL_MIN_AREA_PERCENTAGE / 100.0` and `FINAL_MAX_AREA_PERCENTAGE / 1.0`
(lines 69-70). -/
def areaFilter (boxes : List Box) (imgW imgH : Int) (minFrac maxFrac : ℚ) : List Box :=
  boxes.dedup.filter
    (keepBox (((imgW * imgH : Int) : ℚ) * minFrac) (((imgW * imgH : Int) : ℚ) * maxFrac))

/-- CropPlanner (lines 91-92 of the source), before NumPy clamping:
`expanded_y_start = max(0, y - h)`, and the slice
`image[expanded_y_start : y+h, x : x+w]` nominally spans rows
`expanded_y_start ..< y+h` and columns `x ..< x+w`. -/
def cropRegion (b : Box) : Box :=
  let ys := max 0 (b.y - b.h)
  { x := b.x, y := ys, w := b.w, h := b.y + b.h - ys }

/-- Normalization of one Python/NumPy slice endpoint on an axis of length `n`:
a negative endpoint counts from the end, and the result is clamped to `[0, n]`. -/
def sliceBound (n i : Int) : Int := max 0 (min (if i < 0 then i + n else i) n)

/-- Number of indices selected by the slice `start : stop` (step 1) on an axis
of length `n`. -/
def sliceLen (n start stop : Int) : Int := max 0 (sliceBound n stop - sliceBound n start)

/-- Pixel count of `expanded_crop = image[max(0,y-h) : y+h, x : x+w]`
(lines 91-94 of the source); `expanded_crop.size` is this times the channel
count, so the `size > 0` test of line 94 is `0 < cropPixels`. -/
def cropPixels (imgW imgH : Int) (b : Box) : Int :=
  sliceLen imgH (max 0 (b.y - b.h)) (b.y + b.h) * sliceLen imgW b.x (b.x + b.w)

/-- Line 96 of the source: `crop_filename = f"{name}_crop_{i+1}{ext}"`, given
the already-split stem and extension of the input blob name. -/
def cropName (base ext : List Char) (i : Nat) : List Char :=
  base ++ "_crop_".toList ++ Nat.toDigits 10 i ++ ext

/-- Emission loop of lines 89-100 of the source (uploads assumed to succeed):
`i` is the running `enumerate` index over the retained boxes; a crop is
emitted iff its pixel count is positive, and it is paired with `i + 1` and
the derived filename. -/
def emitLoop (imgW imgH : Int) (base ext : List Char) : Nat → List Box → List (Nat × List Char)
  | _, [] => []
  | i, b :: rest =>
    if 0 < cropPixels imgW imgH b then
      (i + 1, cropName base ext (i + 1)) :: emitLoop imgW imgH base ext (i + 1) rest
    else
      emitLoop imgW imgH base ext (i + 1) rest

/-- The emission loop started at index 0, as `enumerate` does. -/
def emitCrops (imgW imgH : Int) (base ext : List Char) (tags : List Box) :
    List (Nat × List Char) :=
  emitLoop imgW imgH base ext 0 tags

/-- Upload control flow of lines 89-103 of the source: the whole loop body
runs inside the function-level `try/except`, so the first failing upload
raises out of the loop and the following crops are never attempted. `ok i`
says whether uploading crop `i` succeeds; the result lists the crops whose
upload is attempted, in order. -/
def attemptUploads (ok : Nat → Bool) : List Nat → List Nat
  | [] => []
  | i :: rest => if ok i then i :: attemptUploads ok rest else [i]

/-- The body of `ManipulateImage` after reading the blob (lines 37-100):
`decoded` is the result of `cv2.imdecode` (`none` models a decode failure, in
which case line 41 returns immediately), `dets` the EasyOCR results, and the
emitted crops are produced by extraction, area filtering, and the emission
loop. `base`/`ext` are the stem and extension split off the blob name on
line 86. -/
def manipulateImage (decoded : Option (Int × Int)) (dets : List Detection)
    (kws : List (List Char)) (minFrac maxFrac : ℚ) (base ext : List Char) :
    List (Nat × List Char) :=
  match decoded with
  | none => []
  | some (imgW, imgH) =>
    emitCrops imgW imgH base ext (areaFilter (extract kws dets) imgW imgH minFrac maxFrac)

/-- One whole invocation: the emitted crops plus the upload attempts made for
them. -/
def runPipeline (decoded : Option (Int × Int)) (dets : List Detection)
    (kws : List (List Char)) (minFrac maxFrac : ℚ) (base ext : List Char)
    (ok : Nat → Bool) : List (Nat × List Char) × List Nat :=
  let crops := manipulateImage decoded dets kws minFrac maxFrac base ext
  (crops, attemptUploads ok (crops.map Prod.fst))

/-- A keyword detection whose quadrilateral is malformed: `br` lies left of
and above `tl`, so the derived box has negative width and height. -/
def badDet : Detection :=
  { tl := ⟨((10 : Int) : ℚ), ((10 : Int) : ℚ)⟩
    tr := ⟨((5 : Int) : ℚ), ((10 : Int) : ℚ)⟩
    br := ⟨((5 : Int) : ℚ), ((5 : Int) : ℚ)⟩
    bl := ⟨((10 : Int) : ℚ), ((5 : Int) : ℚ)⟩
    text := "50% off".toList
    confidence := 9 / 10 }

/-- A box that passes the default area filter in a 1000×1000 image but whose
crop slice is empty (its `x` lies beyond the image width), so it is skipped
by the `size > 0` test while still consuming an `enumerate` index. -/
def skipTag : Box := ⟨2000, 0, 100, 100⟩

/-- A box that passes the default area filter in a 1000×1000 image and whose
crop is nonempty. -/
def emitTag : Box := ⟨0, 0, 100, 100⟩

/-- Sample boxes of areas 2000, 2500 and 2600 for the boundary facts. -/
def box2000 : Box := ⟨0, 0, 40, 50⟩

/-- Area-2500 sample box. -/
def box2500 : Box := ⟨0, 1, 50, 50⟩

/-- Area-2600 sample box. -/
def box2600 : Box := ⟨0, 2, 52, 50⟩

/-- Characterization of the leading-segment check. -/
theorem leadsWith_iff : ∀ (t p : List Char), leadsWith t p = true ↔ p <+: t
  | _, [] => by simp [leadsWith]
  | [], _ :: _ => by simp [leadsWith, List.prefix_nil]
  | c :: t, d :: p => by
    show (c == d && leadsWith t p) = true ↔ d :: p <+: c :: t
    rw [Bool.and_eq_true, beq_iff_eq, leadsWith_iff t p, List.cons_prefix_cons]
    constructor
    · rintro ⟨h1, h2⟩
      exact ⟨h1.symm, h2⟩
    · rintro ⟨h1, h2⟩
      exact ⟨h1.symm, h2⟩

/-- Characterization of the Python substring test: `containsSub t p` holds
iff `p` occurs contiguously inside `t`. -/
theorem containsSub_correct : ∀ (t p : List Char), containsSub t p = true ↔ p <:+: t
  | [], p => by simp [containsSub, List.isEmpty_iff, List.infix_nil]
  | c :: t, p => by
    show (leadsWith (c :: t) p || containsSub t p) = true ↔ p <:+: c :: t
    rw [Bool.or_eq_true, leadsWith_iff, containsSub_correct t p, List.infix_cons_iff]

/-- The short-circuiting keyword loop decides the same predicate as `List.any`. -/
theorem firstMatch_eq_any (t : List Char) :
    ∀ kws : List (List Char), firstMatch t kws = kws.any fun k => containsSub t k
  | [] => rfl
  | k :: rest => by
    show (if containsSub t k then true else firstMatch t rest) = _
    cases h : containsSub t k
    · simp [h, firstMatch_eq_any t rest]
    · simp [h]

/-- CandidateExtractor is the filter of the keyword-matching detections,
mapped through the box construction. -/
theorem extract_eq (kws : List (List Char)) :
    ∀ dets : List Detection,
      extract kws dets =
        (dets.filter fun d => kws.any fun k => containsSub (normText d.text) k).map toBox
  | [] => rfl
  | d :: rest => by
    cases h : kws.any fun k => containsSub (normText d.text) k <;>
      simp [extract, firstMatch_eq_any, h, extract_eq kws rest, List.filter_cons]

/-- A `List.any` only depends on the membership of the list scanned. -/
theorem any_congr_of_mem_iff {α : Type} (f : α → Bool) (l₁ l₂ : List α)
    (h : ∀ a, a ∈ l₁ ↔ a ∈ l₂) : l₁.any f = l₂.any f := by
  rw [Bool.eq_iff_iff, List.any_eq_true, List.any_eq_true]
  constructor
  · rintro ⟨x, hx, hf⟩
    exact ⟨x, (h x).1 hx, hf⟩
  · rintro ⟨x, hx, hf⟩
    exact ⟨x, (h x).2 hx, hf⟩

/-- Reordering the keyword list does not change CandidateExtractor's output. -/
theorem extract_perm_congr (kws₁ kws₂ : List (List Char)) (h : kws₁.Perm kws₂)
    (dets : List Detection) : extract kws₁ dets = extract kws₂ dets := by
  rw [extract_eq, extract_eq]
  exact congrArg (List.map toBox)
    (List.filter_congr fun d _ =>
      any_congr_of_mem_iff _ kws₁ kws₂ fun a => h.mem_iff)

/-- Membership characterization of AreaFilter: a box is retained iff it is
one of the deduplicated input boxes and its area lies strictly between
`totalArea * minFrac` and `totalArea * maxFrac`. -/
theorem mem_areaFilter (boxes : List Box) (imgW imgH : Int) (minFrac maxFrac : ℚ)
    (b : Box) :
    b ∈ areaFilter boxes imgW imgH minFrac maxFrac ↔
      b ∈ boxes.dedup ∧
        ((imgW * imgH : Int) : ℚ) * minFrac < ((b.w * b.h : Int) : ℚ) ∧
        ((b.w * b.h : Int) : ℚ) < ((imgW * imgH : Int) : ℚ) * maxFrac := by
  simp [areaFilter, keepBox, List.mem_filter, Bool.and_eq_true, decide_eq_true_eq,
    and_assoc]

/-- Truncation of an integer-valued rational returns that integer. -/
theorem pyInt_intCast (n : Int) : pyInt ((n : Int) : ℚ) = n := by
  rw [pyInt, Rat.num_intCast, Rat.den_intCast]
  exact Int.tdiv_one n

/-- The malformed-quad detection produces the degenerate box
`(10, 10, -5, -5)`. -/
theorem toBox_badDet : toBox badDet = ⟨10, 10, -5, -5⟩ := by
  have hsub : ((5 : Int) : ℚ) - ((10 : Int) : ℚ) = ((-5 : Int) : ℚ) := by
    push_cast
    ring
  simp only [toBox, badDet, hsub, pyInt_intCast]

/-- The normalized text of `badDet` matches the keyword list. -/
theorem badDet_matches :
    (DISCOUNT_KEYWORDS.any fun k => containsSub (normText badDet.text) k) = true := by
  decide

/-- The emission loop started at index `n` is the filter-map of the
`enumerate`-indexed retained boxes: position `i` contributes `(i+1, name)`
exactly when its crop has positive pixel count. -/
theorem emitLoop_eq_enumFrom (imgW imgH : Int) (base ext : List Char) :
    ∀ (n : Nat) (tags : List Box),
      emitLoop imgW imgH base ext n tags =
        (List.enumFrom n tags).filterMap fun p =>
          if 0 < cropPixels imgW imgH p.2 then
            some (p.1 + 1, cropName base ext (p.1 + 1))
          else none
  | _, [] => rfl
  | n, b :: rest => by
    by_cases h : 0 < cropPixels imgW imgH b <;>
      simp [emitLoop, List.enumFrom, List.filterMap_cons, h,
        emitLoop_eq_enumFrom imgW imgH base ext (n + 1) rest]

/-- Every index emitted by the loop exceeds the loop's starting index. -/
theorem emitLoop_mem_lt (imgW imgH : Int) (base ext : List Char) :
    ∀ (n : Nat) (tags : List Box) (p : Nat × List Char),
      p ∈ emitLoop imgW imgH base ext n tags → n < p.1
  | _, [], p => by simp [emitLoop]
  | n, b :: rest, p => by
    by_cases h : 0 < cropPixels imgW imgH b
    · simp only [emitLoop, if_pos h, List.mem_cons]
      rintro (rfl | hp)
      · omega
      · have := emitLoop_mem_lt imgW imgH base ext (n + 1) rest p hp
        omega
    · simp only [emitLoop, if_neg h]
      intro hp
      have := emitLoop_mem_lt imgW imgH base ext (n + 1) rest p hp
      omega

/-- The indices emitted by the loop are strictly increasing. -/
theorem emitLoop_chain (imgW imgH : Int) (base ext : List Char) :
    ∀ (n : Nat) (tags : List Box),
      List.Chain' (fun p q => p.1 < q.1) (emitLoop imgW imgH base ext n tags)
  | _, [] => List.chain'_nil
  | n, b :: rest => by
    by_cases h : 0 < cropPixels imgW imgH b
    · simp only [emitLoop, if_pos h]
      refine List.chain'_cons'.2 ⟨?_, emitLoop_chain imgW imgH base ext (n + 1) rest⟩
      intro q hq
      exact emitLoop_mem_lt imgW imgH base ext (n + 1) rest q (List.mem_of_mem_head? hq)
    · simp only [emitLoop, if_neg h]
      exact emitLoop_chain imgW imgH base ext (n + 1) rest

/-- Claim C1: CandidateExtractor produces a bounding box for a detection iff
its normalized text (lowercased, trimmed) contains at least one configured
keyword as a literal substring, producing exactly one box per matching
detection (so at most one per detection), and reordering the keyword list
does not change the output. -/
theorem candidateExtractor_keyword_iff (kws : List (List Char)) (dets : List Detection) :
    (extract kws dets =
      (dets.filter fun d => kws.any fun k => containsSub (normText d.text) k).map toBox) ∧
    (∀ t k : List Char, containsSub t k = true ↔ k <:+: t) ∧
    (∀ kws₂ : List (List Char), kws.Perm kws₂ → extract kws dets = extract kws₂ dets) :=
  ⟨extract_eq kws dets, fun t k => containsSub_correct t k,
   fun kws₂ h => extract_perm_congr kws kws₂ h dets⟩

/-- Concrete instance of the keyword-order part of C1. -/
theorem candidateExtractor_keyword_iff_witness :
    (["off".toList, "%".toList] : List (List Char)).Perm ["%".toList, "off".toList] ∧
    extract ["off".toList, "%".toList] [badDet] =
      extract ["%".toList, "off".toList] [badDet] :=
  ⟨List.Perm.swap "%".toList "off".toList [],
   (candidateExtractor_keyword_iff ["off".toList, "%".toList] [badDet]).2.2
     ["%".toList, "off".toList] (List.Perm.swap "%".toList "off".toList [])⟩

/-- Claim C2: for every box with non-negative `y` and `h`, the planned crop
region starts at `x` horizontally and at `max(0, y - h)` vertically, and ends
at `x + w` and `y + h`; in particular `(10,50,20,30)` yields `(10,20,20,60)`
and `(10,5,20,30)` yields `(10,0,20,35)`. -/
theorem cropPlanner_expansion (b : Box) (hy : 0 ≤ b.y) (hh : 0 ≤ b.h) :
    ((cropRegion b).x = b.x ∧
     (cropRegion b).y = max 0 (b.y - b.h) ∧
     (cropRegion b).x + (cropRegion b).w = b.x + b.w ∧
     (cropRegion b).y + (cropRegion b).h = b.y + b.h) ∧
    cropRegion ⟨10, 50, 20, 30⟩ = ⟨10, 20, 20, 60⟩ ∧
    cropRegion ⟨10, 5, 20, 30⟩ = ⟨10, 0, 20, 35⟩ := by
  refine ⟨⟨rfl, rfl, rfl, ?_⟩, by decide, by decide⟩
  simp only [cropRegion]
  omega

/-- Concrete instance of C2 at the box `(10, 50, 20, 30)`. -/
theorem cropPlanner_expansion_witness :
    (0 : Int) ≤ (⟨10, 50, 20, 30⟩ : Box).y ∧
    (0 : Int) ≤ (⟨10, 50, 20, 30⟩ : Box).h ∧
    (cropRegion ⟨10, 50, 20, 30⟩).y + (cropRegion ⟨10, 50, 20, 30⟩).h =
      (⟨10, 50, 20, 30⟩ : Box).y + (⟨10, 50, 20, 30⟩ : Box).h :=
  ⟨by decide, by decide,
   (cropPlanner_expansion ⟨10, 50, 20, 30⟩ (by decide) (by decide)).1.2.2.2⟩

/-- Claim C3: a deduplicated input box is retained by AreaFilter iff
`totalArea * minFrac < w * h < totalArea * maxFrac`, strict on both sides,
with `totalArea = imgW * imgH`. -/
theorem areaFilter_retain_iff (boxes : List Box) (imgW imgH : Int)
    (minFrac maxFrac : ℚ) (b : Box) :
    b ∈ areaFilter boxes imgW imgH minFrac maxFrac ↔
      b ∈ boxes.dedup ∧
        ((imgW * imgH : Int) : ℚ) * minFrac < ((b.w * b.h : Int) : ℚ) ∧
        ((b.w * b.h : Int) : ℚ) < ((imgW * imgH : Int) : ℚ) * maxFrac :=
  mem_areaFilter boxes imgW imgH minFrac maxFrac b

/-- Claim C9: AreaFilter's output has no duplicates, and the retained boxes,
viewed as a set, are a deterministic function of the input's membership:
any two inputs with the same members (in particular permutations or
duplications of each other) retain exactly the same boxes. -/
theorem areaFilter_set_deterministic (boxes : List Box) (imgW imgH : Int)
    (minFrac maxFrac : ℚ) :
    (areaFilter boxes imgW imgH minFrac maxFrac).Nodup ∧
    ∀ boxes₂ : List Box, (∀ b : Box, b ∈ boxes ↔ b ∈ boxes₂) →
      ∀ b : Box,
        (b ∈ areaFilter boxes imgW imgH minFrac maxFrac ↔
          b ∈ areaFilter boxes₂ imgW imgH minFrac maxFrac) := by
  constructor
  · exact (List.nodup_dedup boxes).filter _
  · intro boxes₂ h b
    rw [mem_areaFilter, mem_areaFilter, List.mem_dedup, List.mem_dedup, h b]

/-- Concrete instance of C9: a duplicated, permuted input retains the same
boxes. -/
theorem areaFilter_set_deterministic_witness :
    (∀ b : Box, b ∈ [box2500, box2500, box2600] ↔ b ∈ [box2600, box2500]) ∧
    (box2500 ∈ areaFilter [box2500, box2500, box2600] 1000 1000
        (FINAL_MIN_AREA_PERCENTAGE / 100) (FINAL_MAX_AREA_PERCENTAGE / 1) ↔
      box2500 ∈ areaFilter [box2600, box2500] 1000 1000
        (FINAL_MIN_AREA_PERCENTAGE / 100) (FINAL_MAX_AREA_PERCENTAGE / 1)) := by
  have h : ∀ b : Box, b ∈ [box2500, box2500, box2600] ↔ b ∈ [box2600, box2500] := by
    intro b
    simp only [List.mem_cons, List.not_mem_nil, or_false]
    tauto
  exact ⟨h, (areaFilter_set_deterministic [box2500, box2500, box2600] 1000 1000
    (FINAL_MIN_AREA_PERCENTAGE / 100) (FINAL_MAX_AREA_PERCENTAGE / 1)).2
    [box2600, box2500] h box2500⟩

/-- Claim C10: for every box with non-negative `y` and `h`, the planned crop
region's bottom edge is exactly `y + h` and its height is exactly
`min(2h, y + h)`, hence at most twice the box height. -/
theorem cropPlanner_bottom_and_height (b : Box) (hy : 0 ≤ b.y) (hh : 0 ≤ b.h) :
    (cropRegion b).y + (cropRegion b).h = b.y + b.h ∧
    (cropRegion b).h = min (2 * b.h) (b.y + b.h) ∧
    (cropRegion b).h ≤ 2 * b.h := by
  simp only [cropRegion]
  omega

/-- Concrete instance of C10 at the box `(10, 5, 20, 30)`. -/
theorem cropPlanner_bottom_and_height_witness :
    (0 : Int) ≤ (⟨10, 5, 20, 30⟩ : Box).y ∧
    (0 : Int) ≤ (⟨10, 5, 20, 30⟩ : Box).h ∧
    (cropRegion ⟨10, 5, 20, 30⟩).h =
      min (2 * (⟨10, 5, 20, 30⟩ : Box).h)
        ((⟨10, 5, 20, 30⟩ : Box).y + (⟨10, 5, 20, 30⟩ : Box).h) :=
  ⟨by decide, by decide,
   (cropPlanner_bottom_and_height ⟨10, 5, 20, 30⟩ (by decide) (by decide)).2.1⟩

/-- Counterexample to claim C4 as stated: on a keyword-matching detection
with a malformed quadrilateral, CandidateExtractor's output contains the
degenerate box `(10, 10, -5, -5)` — degenerate boxes are not dropped. -/
theorem degenerate_box_in_output :
    extract DISCOUNT_KEYWORDS [badDet] = [⟨10, 10, -5, -5⟩] ∧
    ((⟨10, 10, -5, -5⟩ : Box).w ≤ 0 ∧ (⟨10, 10, -5, -5⟩ : Box).h ≤ 0) := by
  have hm : firstMatch (normText badDet.text) DISCOUNT_KEYWORDS = true := by decide
  refine ⟨?_, by decide, by decide⟩
  simp only [extract, hm, if_true, toBox_badDet]

/-- Claim C4 (amended): CandidateExtractor does not drop degenerate boxes;
every keyword-matching detection contributes its box to the output, whatever
the quad-point ordering and the signs of the resulting width and height. -/
theorem degenerate_boxes_not_dropped (kws : List (List Char)) (dets : List Detection)
    (d : Detection) (hd : d ∈ dets)
    (hm : (kws.any fun k => containsSub (normText d.text) k) = true) :
    toBox d ∈ extract kws dets := by
  rw [extract_eq]
  exact List.mem_map_of_mem toBox (List.mem_filter.2 ⟨hd, hm⟩)

/-- Concrete instance of amended C4: the degenerate box of `badDet` is in the
output. -/
theorem degenerate_boxes_not_dropped_witness :
    badDet ∈ [badDet] ∧
    (DISCOUNT_KEYWORDS.any fun k => containsSub (normText badDet.text) k) = true ∧
    toBox badDet ∈ extract DISCOUNT_KEYWORDS [badDet] :=
  ⟨List.mem_singleton_self badDet, badDet_matches,
   degenerate_boxes_not_dropped DISCOUNT_KEYWORDS [badDet] badDet
     (List.mem_singleton_self badDet) badDet_matches⟩

/-- Counterexample to claim C5 as stated: in a 1000×1000 image with the
default fractions, a box of area 2500 is retained by AreaFilter, not
excluded (the actual lower bound is 2000, not 2500). -/
theorem area2500_box_retained :
    box2500 ∈ areaFilter [box2500] 1000 1000 (FINAL_MIN_AREA_PERCENTAGE / 100)
      (FINAL_MAX_AREA_PERCENTAGE / 1) := by
  rw [mem_areaFilter]
  refine ⟨by decide, ?_, ?_⟩ <;>
    norm_num [box2500, FINAL_MIN_AREA_PERCENTAGE, FINAL_MAX_AREA_PERCENTAGE]

/-- Claim C5 (amended): in a 1000×1000 image with the default
`minAreaFraction` of 0.002, the minimum area bound is 2000; a box of area
2000 is excluded (boundary value, strict inequality) while boxes of area
2500 and 2600 are included. -/
theorem areaFilter_default_boundary :
    ((1000 * 1000 : Int) : ℚ) * (FINAL_MIN_AREA_PERCENTAGE / 100) = 2000 ∧
    box2000 ∉ areaFilter [box2000, box2500, box2600] 1000 1000
      (FINAL_MIN_AREA_PERCENTAGE / 100) (FINAL_MAX_AREA_PERCENTAGE / 1) ∧
    box2500 ∈ areaFilter [box2000, box2500, box2600] 1000 1000
      (FINAL_MIN_AREA_PERCENTAGE / 100) (FINAL_MAX_AREA_PERCENTAGE / 1) ∧
    box2600 ∈ areaFilter [box2000, box2500, box2600] 1000 1000
      (FINAL_MIN_AREA_PERCENTAGE / 100) (FINAL_MAX_AREA_PERCENTAGE / 1) := by
  refine ⟨by norm_num [FINAL_MIN_AREA_PERCENTAGE], ?_, ?_, ?_⟩
  · intro hmem
    rw [mem_areaFilter] at hmem
    have hlt := hmem.2.1
    norm_num [box2000, FINAL_MIN_AREA_PERCENTAGE] at hlt
  · rw [mem_areaFilter]
    refine ⟨by decide, ?_, ?_⟩ <;>
      norm_num [box2500, FINAL_MIN_AREA_PERCENTAGE, FINAL_MAX_AREA_PERCENTAGE]
  · rw [mem_areaFilter]
    refine ⟨by decide, ?_, ?_⟩ <;>
      norm_num [box2600, FINAL_MIN_AREA_PERCENTAGE, FINAL_MAX_AREA_PERCENTAGE]

/-- Counterexample to claim C6 as stated: both `skipTag` and `emitTag` are
retained by the default area filter in a 1000×1000 image, yet the emission
loop skips `skipTag` (its crop slice is empty) and emits the single crop of
`emitTag` with index 2 and name `photo_crop_2.jpg` — the emitted indices are
not the consecutive emission-order indices 1, 2, 3, …. -/
theorem emit_index_gap :
    skipTag ∈ areaFilter [skipTag, emitTag] 1000 1000 (FINAL_MIN_AREA_PERCENTAGE / 100)
      (FINAL_MAX_AREA_PERCENTAGE / 1) ∧
    emitTag ∈ areaFilter [skipTag, emitTag] 1000 1000 (FINAL_MIN_AREA_PERCENTAGE / 100)
      (FINAL_MAX_AREA_PERCENTAGE / 1) ∧
    emitCrops 1000 1000 "photo".toList ".jpg".toList [skipTag, emitTag] =
      [(2, "photo_crop_2.jpg".toList)] := by
  refine ⟨?_, ?_, by decide⟩ <;>
    (rw [mem_areaFilter]
     refine ⟨by decide, ?_, ?_⟩ <;>
       norm_num [skipTag, emitTag, FINAL_MIN_AREA_PERCENTAGE, FINAL_MAX_AREA_PERCENTAGE])

/-- Claim C6 (amended): each emitted crop is paired with `i + 1` where `i` is
the 0-based position of its box in the retained list — so the indices are
strictly increasing but may have gaps where a retained box's crop has zero
pixel area — and its name is the input stem with `_crop_<i+1>` inserted
before the extension. -/
theorem emit_indexing_and_names (imgW imgH : Int) (base ext : List Char)
    (tags : List Box) :
    emitCrops imgW imgH base ext tags =
      (tags.enum.filterMap fun p =>
        if 0 < cropPixels imgW imgH p.2 then
          some (p.1 + 1, cropName base ext (p.1 + 1))
        else none) ∧
    List.Chain' (fun p q => p.1 < q.1) (emitCrops imgW imgH base ext tags) :=
  ⟨emitLoop_eq_enumFrom imgW imgH base ext 0 tags,
   emitLoop_chain imgW imgH base ext 0 tags⟩

/-- Counterexample to claim C7 as stated: if the upload of crop 2 fails, crop
3 is never attempted — the attempted list is `[1, 2]`, not the full `[1, 2, 3]`. -/
theorem upload_failure_aborts_rest :
    attemptUploads (fun i => decide (i ≠ 2)) [1, 2, 3] = [1, 2] ∧
    ([1, 2] : List Nat) ≠ [1, 2, 3] := by
  decide

/-- Claim C7 (amended): a failed upload aborts the remaining uploads — the
exception propagates to the function-level handler, so the attempted crops
are exactly the longest prefix of successful uploads plus the first failing
crop, if any. -/
theorem uploads_stop_at_first_failure (ok : Nat → Bool) :
    ∀ crops : List Nat,
      attemptUploads ok crops = crops.takeWhile ok ++ (crops.dropWhile ok).take 1
  | [] => rfl
  | i :: rest => by
    cases h : ok i <;>
      simp [attemptUploads, List.takeWhile_cons, List.dropWhile_cons, h,
        uploads_stop_at_first_failure ok rest]

/-- Claim C8: when decoding fails, the invocation aborts at the decode stage:
no crops are emitted and no upload is attempted, whatever the detections,
keywords, thresholds, name parts, and upload outcomes. -/
theorem decode_failure_no_output (dets : List Detection) (kws : List (List Char))
    (minFrac maxFrac : ℚ) (base ext : List Char) (ok : Nat → Bool) :
    runPipeline none dets kws minFrac maxFrac base ext ok = ([], []) := rfl
